import Mathlib

/-!
Verification of the document-rag-app backend (Python) against its
natural-language specification.

The Python sources under `app/` are shallowly embedded as executable Lean
definitions:

* `app/services/cache_service.py`  — cache key generation (SHA-256 based),
  the Redis-backed result cache, and document-cache invalidation;
* `app/utils/cached_embeddings.py` — the caching wrapper around an
  embeddings provider;
* `app/middleware/rate_limiting.py` — the in-memory and the Redis
  sliding-window rate limiters;
* `app/middleware/performance.py`  — the per-route concurrency limiter.

Machine-level details are modelled explicitly: Python floats/ints that hold
timestamps become `Int`; SHA-256 is implemented over `Nat` bytes with
explicit reduction `% 2^32`; Redis commands are given small-step semantics
over an explicit store state; `try/except` blocks become `Except`-matching.
-/

/-! ### Python-style helpers -/

/-- Python truthiness of an optional list: `None` and `[]` are falsy.
Mirrors `if cached_embedding:` in `cached_embeddings.py`. -/
def pyTruthyList {α : Type} (o : Option (List α)) : Bool :=
  match o with
  | none => false
  | some l => !l.isEmpty

/-- Python truthiness of an optional string: `None` and `""` are falsy.
Mirrors `if cached_result:` in `cache_service.py`. -/
def pyTruthyStr (o : Option String) : Bool :=
  match o with
  | none => false
  | some s => !(s == "")

/-- `str(x)` for Python `Optional[str]` values: `str(None) = "None"`. -/
def pyStrOpt (o : Option String) : String :=
  match o with
  | none => "None"
  | some s => s

/-! ### SHA-256 over `Nat` bytes

Faithful implementation of `hashlib.sha256(key_string.encode()).hexdigest()`
used by `CacheService._generate_cache_key`.  All 32-bit arithmetic is `Nat`
arithmetic reduced modulo `2^32`. -/

/-- UTF-8 encoding of one character (what Python `str.encode()` does
per code point). -/
def utf8Bytes (c : Char) : List Nat :=
  let n := c.toNat
  if n < 128 then [n]
  else if n < 2048 then
    [192 ||| (n >>> 6), 128 ||| (n &&& 63)]
  else if n < 65536 then
    [224 ||| (n >>> 12), 128 ||| ((n >>> 6) &&& 63), 128 ||| (n &&& 63)]
  else
    [240 ||| (n >>> 18), 128 ||| ((n >>> 12) &&& 63),
     128 ||| ((n >>> 6) &&& 63), 128 ||| (n &&& 63)]

/-- The byte sequence of `s.encode()` (UTF-8). -/
def strBytes (s : String) : List Nat :=
  s.data.flatMap utf8Bytes

/-- 32-bit right rotation. -/
def rotr32 (n x : Nat) : Nat :=
  ((x >>> n) ||| (x <<< (32 - n))) % 4294967296

/-- SHA-256 round constants. -/
def shaK : List Nat :=
  [1116352408, 1899447441, 3049323471, 3921009573, 961987163,
   1508970993, 2453635748, 2870763221, 3624381080, 310598401,
   607225278, 1426881987, 1925078388, 2162078206, 2614888103,
   3248222580, 3835390401, 4022224774, 264347078, 604807628,
   770255983, 1249150122, 1555081692, 1996064986, 2554220882,
   2821834349, 2952996808, 3210313671, 3336571891, 3584528711,
   113926993, 338241895, 666307205, 773529912, 1294757372,
   1396182291, 1695183700, 1986661051, 2177026350, 2456956037,
   2730485921, 2820302411, 3259730800, 3345764771, 3516065817,
   3600352804, 4094571909, 275423344, 430227734, 506948616,
   659060556, 883997877, 958139571, 1322822218, 1537002063,
   1747873779, 1955562222, 2024104815, 2227730452, 2361852424,
   2428436474, 2756734187, 3204031479, 3329325298]

/-- SHA-256 initial hash value. -/
def shaH0 : List Nat :=
  [1779033703, 3144134277, 1013904242, 2773480762, 1359893119,
   2600822924, 528734635, 1541459225]

/-- SHA-256 message padding: append `0x80`, zero bytes, then the 64-bit
big-endian bit length, reaching a multiple of 64 bytes. -/
def shaPad (msg : List Nat) : List Nat :=
  let len := msg.length
  let bitLen := 8 * len
  let k := (120 - ((len + 1) % 64)) % 64
  msg ++ [128] ++ List.replicate k 0 ++
    [(bitLen >>> 56) % 256, (bitLen >>> 48) % 256, (bitLen >>> 40) % 256,
     (bitLen >>> 32) % 256, (bitLen >>> 24) % 256, (bitLen >>> 16) % 256,
     (bitLen >>> 8) % 256, bitLen % 256]

/-- Split a byte list into 64-byte chunks (structural recursion on a fuel
bound so that the kernel can evaluate it). -/
def toChunksGo : Nat → List Nat → List (List Nat)
  | 0, _ => []
  | _ + 1, [] => []
  | fuel + 1, b :: rest => ((b :: rest).take 64) :: toChunksGo fuel ((b :: rest).drop 64)

/-- Split a byte list into 64-byte chunks. -/
def toChunks (l : List Nat) : List (List Nat) :=
  toChunksGo l.length l

/-- The sixteen initial 32-bit big-endian words of a 64-byte chunk. -/
def chunkWords (chunk : List Nat) : List Nat :=
  (List.range 16).map fun i =>
    chunk.getD (4 * i) 0 * 16777216 + chunk.getD (4 * i + 1) 0 * 65536 +
    chunk.getD (4 * i + 2) 0 * 256 + chunk.getD (4 * i + 3) 0

/-- Message-schedule extension from 16 to 64 words. -/
def shaSchedule (w : List Nat) : List Nat :=
  (List.range 48).foldl
    (fun acc _ =>
      let m := acc.length
      let s0 :=
        let x := acc.getD (m - 15) 0
        rotr32 7 x ^^^ rotr32 18 x ^^^ (x >>> 3)
      let s1 :=
        let x := acc.getD (m - 2) 0
        rotr32 17 x ^^^ rotr32 19 x ^^^ (x >>> 10)
      acc ++ [(acc.getD (m - 16) 0 + s0 + acc.getD (m - 7) 0 + s1) % 4294967296])
    w

/-- One compression round over the state `(a,b,c,d,e,f,g,h)`. -/
def shaRound (w : List Nat) (s : Nat × Nat × Nat × Nat × Nat × Nat × Nat × Nat)
    (t : Nat) : Nat × Nat × Nat × Nat × Nat × Nat × Nat × Nat :=
  let (a, b, c, d, e, f, g, h) := s
  let bs1 := rotr32 6 e ^^^ rotr32 11 e ^^^ rotr32 25 e
  let ch := (e &&& f) ^^^ ((e ^^^ 4294967295) &&& g)
  let t1 := (h + bs1 + ch + shaK.getD t 0 + w.getD t 0) % 4294967296
  let bs0 := rotr32 2 a ^^^ rotr32 13 a ^^^ rotr32 22 a
  let mj := (a &&& b) ^^^ (a &&& c) ^^^ (b &&& c)
  let t2 := (bs0 + mj) % 4294967296
  ((t1 + t2) % 4294967296, a, b, c, (d + t1) % 4294967296, e, f, g)

/-- Compress one 64-byte chunk into the running hash (eight words). -/
def shaCompress (hsh : List Nat) (chunk : List Nat) : List Nat :=
  let w := shaSchedule (chunkWords chunk)
  let s0 := (hsh.getD 0 0, hsh.getD 1 0, hsh.getD 2 0, hsh.getD 3 0,
             hsh.getD 4 0, hsh.getD 5 0, hsh.getD 6 0, hsh.getD 7 0)
  let (a, b, c, d, e, f, g, h) := (List.range 64).foldl (shaRound w) s0
  [(hsh.getD 0 0 + a) % 4294967296, (hsh.getD 1 0 + b) % 4294967296,
   (hsh.getD 2 0 + c) % 4294967296, (hsh.getD 3 0 + d) % 4294967296,
   (hsh.getD 4 0 + e) % 4294967296, (hsh.getD 5 0 + f) % 4294967296,
   (hsh.getD 6 0 + g) % 4294967296, (hsh.getD 7 0 + h) % 4294967296]

/-- A hex digit character (lowercase, as Python's `hexdigest`). -/
def hexDigit (n : Nat) : Char :=
  if n < 10 then Char.ofNat (48 + n) else Char.ofNat (87 + n)

/-- Lowercase 8-hex-digit rendering of a 32-bit word. -/
def hexWord32 (w : Nat) : String :=
  String.mk ((List.range 8).map fun i => hexDigit ((w >>> (28 - 4 * i)) % 16))

/-- `hashlib.sha256(s.encode()).hexdigest()`. -/
def sha256hex (s : String) : String :=
  String.join (((toChunks (shaPad (strBytes s))).foldl shaCompress shaH0).map hexWord32)

/-! ### Cache key generation (`CacheService._generate_cache_key`)

`_generate_cache_key(prefix, *args, **kwargs)` builds
`"|".join([str(a) for a in args] + [f"{k}={v}" for k, v in sorted(kwargs.items())])`
and returns `f"{prefix}:{sha256(key_string)[:16]}"`.

Keyword arguments are modelled as association lists of already-stringified
values (`str` is applied by the f-string; `pyStrOpt` models `str` on
`Optional[str]` values, `toString` on ints).  Python's `sorted` on the
`(name, value)` pairs is lexicographic tuple comparison; since dict keys are
unique the value component is never actually compared. -/

/-- Lexicographic strict comparison of code-point lists — what Python `<`
does on strings.  (Executable, so that keys evaluate in the kernel.) -/
def charsLt : List Char → List Char → Bool
  | _, [] => false
  | [], _ :: _ => true
  | a :: as, b :: bs => if a = b then charsLt as bs else decide (a.toNat < b.toNat)

/-- Python `a < b` on strings. -/
def strLt (a b : String) : Bool :=
  charsLt a.data b.data


/-- Lexicographic comparison of `(name, value)` pairs — what Python's
`sorted` does on `dict.items()` tuples (`≤` on the value encoded as "not
value-greater"). -/
def pairLe (a b : String × String) : Prop :=
  strLt a.1 b.1 = true ∨ (a.1 = b.1 ∧ strLt b.2 a.2 = false)

instance : DecidableRel pairLe := fun a b =>
  inferInstanceAs (Decidable (strLt a.1 b.1 = true ∨ (a.1 = b.1 ∧ strLt b.2 a.2 = false)))


/-- `sorted(kwargs.items())`. -/
def sortedKwargs (kwargs : List (String × String)) : List (String × String) :=
  List.insertionSort pairLe kwargs

/-- The canonical `key_string`: stringified positional arguments in call
order, then `name=value` for each keyword argument sorted by name, joined
with `"|"`. -/
def canonicalKeyString (args : List String) (kwargs : List (String × String)) : String :=
  String.intercalate "|" (args ++ (sortedKwargs kwargs).map fun kv => kv.1 ++ "=" ++ kv.2)

/-- `CacheService._generate_cache_key`. -/
def generateCacheKey (pre : String) (args : List String)
    (kwargs : List (String × String)) : String :=
  pre ++ ":" ++ (sha256hex (canonicalKeyString args kwargs)).take 16

/-- Key for `embedding` cache entries (as built by
`get_embedding_cache`/`set_embedding_cache`). -/
def embeddingCacheKey (text modelName : String) : String :=
  generateCacheKey "embedding" [text] [("model_name", modelName)]

/-- Key for `query` cache entries (as built by
`get_query_cache`/`set_query_cache`). -/
def queryCacheKey (question : String) (docId : Option String) (k : Nat) : String :=
  generateCacheKey "query" [question] [("doc_id", pyStrOpt docId), ("k", toString k)]

/-- Key for `similarity` cache entries. -/
def similarityCacheKey (question : String) (docId : Option String) (k : Nat) : String :=
  generateCacheKey "similarity" [question] [("doc_id", pyStrOpt docId), ("k", toString k)]

/-! ### The Redis key-value store behind `CacheService`

A reachable store is a finite map from key strings to stored string values
together with the TTL that `SETEX` recorded (no clock is modelled, so
entries never expire by themselves).  `KEYS pattern` performs Redis
glob-style matching; the patterns the service uses contain only literal
characters and `*` (the `?` wildcard is also implemented; character-class
syntax is unused by the service and not modelled). -/

/-- Redis glob matching on character lists, with explicit fuel so the
kernel can evaluate it (fuel `|pattern| + |string| + 1` always suffices:
every step drops a pattern or a subject character). -/
def globMatchGo : Nat → List Char → List Char → Bool
  | 0, _, _ => false
  | _ + 1, [], [] => true
  | fuel + 1, '*' :: ps, cs =>
      globMatchGo fuel ps cs ||
        (match cs with
         | [] => false
         | _ :: cs2 => globMatchGo fuel ('*' :: ps) cs2)
  | fuel + 1, '?' :: ps, _ :: cs => globMatchGo fuel ps cs
  | fuel + 1, p :: ps, c :: cs => p == c && globMatchGo fuel ps cs
  | _ + 1, _, _ => false

/-- Redis `KEYS`-style glob matching of a pattern against a key. -/
def globMatch (pat key : String) : Bool :=
  globMatchGo (pat.length + key.length + 1) pat.data key.data

/-- A reachable Redis store: association list from keys to `(ttl, value)`. -/
structure RedisKV where
  entries : List (String × Nat × String)
  deriving DecidableEq

/-- The empty store. -/
def RedisKV.empty : RedisKV := ⟨[]⟩

/-- `GET key`. -/
def RedisKV.get (st : RedisKV) (key : String) : Option String :=
  (st.entries.find? fun e => e.1 == key).map fun e => e.2.2

/-- `SETEX key ttl value`. -/
def RedisKV.setex (st : RedisKV) (key : String) (ttl : Nat) (v : String) : RedisKV :=
  ⟨(st.entries.filter fun e => !(e.1 == key)) ++ [(key, ttl, v)]⟩

/-- `KEYS pattern`. -/
def RedisKV.keysMatching (st : RedisKV) (pat : String) : List String :=
  (st.entries.map fun e => e.1).filter fun key => globMatch pat key

/-- `DEL key...`. -/
def RedisKV.del (st : RedisKV) (ks : List String) : RedisKV :=
  ⟨st.entries.filter fun e => !(ks.contains e.1)⟩

/-! ### `CacheService` operations

Each operation takes the optional client (`self.redis_client`, `none` when
the connection failed) and is a pure state transformer on the store.  The
`try/except` around every store interaction is factored through
`getCacheFrom`/`setCacheFrom`, which pattern-match on an `Except`-valued
store outcome: an exception from the awaited store call (or from
`json.loads`, modelled by a partial `loads`) is caught and turned into
`none`/`false`.  Stored values are JSON strings; serialization is a
parameter (`dumps`/`loads`). -/

/-- `ttl or self.default_ttl` — Python `or`, so `ttl=0` also falls back. -/
def pyOrTtl (ttl : Option Nat) (dflt : Nat) : Nat :=
  match ttl with
  | none => dflt
  | some t => if t = 0 then dflt else t

/-- Body of a cached `get` after the store call: any store error is caught
and treated as a miss; a truthy string is decoded (a decode failure is also
caught: `loads` returns `none`). -/
def getCacheFrom {α ε : Type} (loads : String → Option α)
    (fetched : Except ε (Option String)) : Option α :=
  match fetched with
  | .error _ => none
  | .ok r => if pyTruthyStr r then loads (r.getD "") else none

/-- Outcome of a cached `set` after the store call: any store error is
caught and reported as `false`. -/
def setCacheFrom {ε : Type} (written : Except ε Unit) : Bool :=
  match written with
  | .error _ => false
  | .ok _ => true

/-- `CacheService.get_embedding_cache(text, model_name)`. -/
def get_embedding_cache {α : Type} (loads : String → Option α)
    (client : Option RedisKV) (text modelName : String) : Option α :=
  match client with
  | none => none
  | some st => getCacheFrom (ε := Unit) loads (.ok (st.get (embeddingCacheKey text modelName)))

/-- `CacheService.set_embedding_cache(text, model_name, embedding, ttl)`.
Returns the reported success flag and the resulting store. -/
def set_embedding_cache {α : Type} (dumps : α → String) (client : Option RedisKV)
    (text modelName : String) (embedding : α) (ttl : Option Nat) (defaultTtl : Nat) :
    Bool × Option RedisKV :=
  match client with
  | none => (false, none)
  | some st =>
      let key := embeddingCacheKey text modelName
      let cacheTtl := pyOrTtl ttl defaultTtl
      (setCacheFrom (ε := Unit) (.ok ()), some (st.setex key cacheTtl (dumps embedding)))

/-- `CacheService.get_query_cache(question, doc_id, k)`. -/
def get_query_cache {α : Type} (loads : String → Option α)
    (client : Option RedisKV) (question : String) (docId : Option String) (k : Nat) :
    Option α :=
  match client with
  | none => none
  | some st => getCacheFrom (ε := Unit) loads (.ok (st.get (queryCacheKey question docId k)))

/-- `CacheService.set_query_cache(question, result, doc_id, k, ttl)`. -/
def set_query_cache {α : Type} (dumps : α → String) (client : Option RedisKV)
    (question : String) (docId : Option String) (k : Nat) (result : α)
    (ttl : Option Nat) (defaultTtl : Nat) : Bool × Option RedisKV :=
  match client with
  | none => (false, none)
  | some st =>
      let key := queryCacheKey question docId k
      let cacheTtl := pyOrTtl ttl defaultTtl
      (setCacheFrom (ε := Unit) (.ok ()), some (st.setex key cacheTtl (dumps result)))

/-- `CacheService.get_similarity_search_cache(question, doc_id, k)`. -/
def get_similarity_search_cache {α : Type} (loads : String → Option α)
    (client : Option RedisKV) (question : String) (docId : Option String) (k : Nat) :
    Option α :=
  match client with
  | none => none
  | some st => getCacheFrom (ε := Unit) loads (.ok (st.get (similarityCacheKey question docId k)))

/-- `CacheService.set_similarity_search_cache(question, docs, doc_id, k, ttl)`
(the document-serialization loop is folded into `dumps`). -/
def set_similarity_search_cache {α : Type} (dumps : α → String) (client : Option RedisKV)
    (question : String) (docId : Option String) (k : Nat) (docs : α)
    (ttl : Option Nat) (defaultTtl : Nat) : Bool × Option RedisKV :=
  match client with
  | none => (false, none)
  | some st =>
      let key := similarityCacheKey question docId k
      let cacheTtl := pyOrTtl ttl defaultTtl
      (setCacheFrom (ε := Unit) (.ok ()), some (st.setex key cacheTtl (dumps docs)))

/-- `CacheService.invalidate_document_cache(doc_id)`: for each of the two
patterns, `KEYS pattern`, and when non-empty, `DEL` the matches. -/
def invalidate_document_cache (client : Option RedisKV) (docId : String) :
    Option RedisKV :=
  match client with
  | none => none
  | some st =>
      let patterns := ["query:*doc_id=" ++ docId ++ "*",
                       "similarity:*doc_id=" ++ docId ++ "*"]
      some (patterns.foldl
        (fun s pat =>
          let ks := s.keysMatching pat
          if ks.isEmpty then s else s.del ks)
        st)

/-! ### `CachedEmbeddings` (`app/utils/cached_embeddings.py`)

The wrapper consults `cache_service.get_embedding_cache` per text; that
call never raises (it fails closed, see `getCacheFrom`), so the cache is
abstracted as a total function `cacheGet : String → Option (List α)` giving
the decoded cached vector.  The underlying provider has an optional async
batch method (`hasattr(self.embeddings, 'aembed_documents')`), a sync batch
method, and the analogous pair for single queries; each may raise, modelled
by `Except`.  Provider invocations are logged (one log entry per underlying
method call, carrying the argument list) so that call counts are provable. -/

/-- The underlying embeddings provider. Vector components are abstract
(`α`); a vector is a `List α` so that Python truthiness applies. -/
structure EmbProvider (ε α : Type) where
  aBatch : Option (List String → Except ε (List (List α)))
  sBatch : List String → Except ε (List (List α))
  aSingle : Option (String → Except ε (List α))
  sSingle : String → Except ε (List α)

/-- The `try/except` batch-invocation chain of `aembed_documents`:
use the async method when present (else the sync one inside the `try`),
and on an exception fall back to one sync call, whose own failure
propagates.  Also returns the argument lists of the underlying calls. -/
def providerBatch {ε α : Type} (p : EmbProvider ε α) (ts : List String) :
    Except ε (List (List α)) × List (List String) :=
  let firstTry :=
    match p.aBatch with
    | some f => f ts
    | none => p.sBatch ts
  match firstTry with
  | .ok vs => (.ok vs, [ts])
  | .error _ => (p.sBatch ts, [ts, ts])

/-- The cache-scan phase of `aembed_documents`: for each text (at running
index `i`) a truthy cached vector is appended to `results`, otherwise a
`none` placeholder is appended and the text and its index are recorded.
Returns `(results, uncached_texts, uncached_indices)`. -/
def embedScan {α : Type} (cacheGet : String → Option (List α)) :
    List String → Nat → List (Option (List α)) × List String × List Nat
  | [], _ => ([], [], [])
  | t :: ts, i =>
      let (rs, us, is) := embedScan cacheGet ts (i + 1)
      let c := cacheGet t
      if pyTruthyList c then (some (c.getD []) :: rs, us, is)
      else (none :: rs, t :: us, i :: is)

/-- Result of one `aembed_documents` call: the `results` list (placeholders
that were never overwritten remain `none`), the provider invocation log,
and the `(text, embedding)` pairs passed to `set_embedding_cache`. -/
structure EmbedRun (α : Type) where
  output : List (Option (List α))
  providerCalls : List (List String)
  cacheWrites : List (String × List α)
  deriving DecidableEq

/-- `CachedEmbeddings.aembed_documents(texts)`. -/
def aembedDocuments {ε α : Type} (cacheGet : String → Option (List α))
    (p : EmbProvider ε α) (texts : List String) : Except ε (EmbedRun α) :=
  if texts.isEmpty then .ok ⟨[], [], []⟩
  else
    let rs := (embedScan cacheGet texts 0).1
    let us := (embedScan cacheGet texts 0).2.1
    let is := (embedScan cacheGet texts 0).2.2
    if us.isEmpty then .ok ⟨rs, [], []⟩
    else
      match providerBatch p us with
      | (.error e, _) => .error e
      | (.ok vs, calls) =>
          let updated := (is.zip vs).foldl (fun r iv => r.set iv.1 (some iv.2)) rs
          .ok ⟨updated, calls, us.zip vs⟩

/-- The `try/except` single-query chain of `aembed_query` (same shape as
the batch chain). -/
def providerSingle {ε α : Type} (p : EmbProvider ε α) (t : String) :
    Except ε (List α) × List (List String) :=
  let firstTry :=
    match p.aSingle with
    | some f => f t
    | none => p.sSingle t
  match firstTry with
  | .ok v => (.ok v, [[t]])
  | .error _ => (p.sSingle t, [[t], [t]])

/-- `CachedEmbeddings.aembed_query(text)`: a truthy cached vector is
returned as-is; otherwise the provider chain runs and the fresh vector is
returned (the surrounding cache `set` is fail-silent and not part of the
returned value). -/
def aembedQuery {ε α : Type} (cacheGet : String → Option (List α))
    (p : EmbProvider ε α) (t : String) : Except ε (List α × List (List String)) :=
  let c := cacheGet t
  if pyTruthyList c then .ok (c.getD [], [])
  else
    match providerSingle p t with
    | (.error e, _) => .error e
    | (.ok v, calls) => .ok (v, calls)


/-! ### Splice lemmas for `aembed_documents`

The indexed-update loop `results[uncached_indices[i]] = embedding` fills the
`none` placeholders left to right; `fillNones` is that filling in recursive
form, with a per-index characterization. -/

/-- Fill the `none` placeholders of `rs` from `vs`, left to right (surplus
placeholders stay `none`, surplus values are dropped — as `zip` does). -/
def fillNones {β : Type} : List (Option β) → List β → List (Option β)
  | [], _ => []
  | some r :: rs, vs => some r :: fillNones rs vs
  | none :: rs, [] => none :: fillNones rs []
  | none :: rs, v :: vs => some v :: fillNones rs vs

/-- Number of placeholders among the first `j` result slots. -/
def nonesBefore {β : Type} (rs : List (Option β)) (j : Nat) : Nat :=
  ((rs.take j).filter fun o => o.isNone).length

/-- Number of cache misses among the first `j` texts. -/
def missRank {α : Type} (cacheGet : String → Option (List α)) (ts : List String)
    (j : Nat) : Nat :=
  ((ts.take j).filter fun t => !pyTruthyList (cacheGet t)).length


/-! ### Rate limiters (`app/middleware/rate_limiting.py`)

Timestamps (`time.time()`) are modelled as `Int` so that `now - window` can
go negative exactly as in Python.  Both limiters are modelled for one fixed
key (the stores are per-key).

The in-memory limiter keeps a list of request instants.  The Redis limiter
keeps a sorted set written only through `ZADD key {str(now): now}`: the
member string `str(now)` is determined by (and determines, since `str` is
injective on numbers) the score `now`, so members are modelled by their
scores.  Its pipeline is given small-step semantics over the explicit
per-key state (`RCmd.run`), executed atomically by `runPipe`. -/

/-- `InMemoryRateLimiter.is_allowed(key, limit, window)` for one key whose
recorded request list is `reqs`: prune entries with
`req_time <= now - window`, refuse when `limit` many remain, otherwise
append `now`.  Returns the decision and the new list. -/
def memIsAllowed (reqs : List Int) (now : Int) (limit : Nat) (window : Int) :
    Bool × List Int :=
  let windowStart := now - window
  let pruned := reqs.filter fun rt => windowStart < rt
  if limit ≤ pruned.length then (false, pruned)
  else (true, pruned ++ [now])

/-- The per-key Redis state used by `RedisRateLimiter`: the sorted-set
scores and the last TTL set by `EXPIRE` (no clock passes, so nothing
expires inside a run). -/
structure LimiterKey where
  scores : List Int
  ttl : Option Int
  deriving DecidableEq

/-- The Redis commands the rate-limiter pipeline issues. -/
inductive RCmd : Type
  | zremrangebyscore (lo hi : Int)
  | zcard
  | zadd (score : Int)
  | expire (secs : Int)

/-- Small-step semantics of one command against the per-key state; the
`Int` result is what Redis reports (removed count, cardinality, added
count, success flag). -/
def RCmd.run : RCmd → LimiterKey → LimiterKey × Int
  | .zremrangebyscore lo hi, st =>
      let kept := st.scores.filter fun s => !(decide (lo ≤ s ∧ s ≤ hi))
      (⟨kept, st.ttl⟩, ((st.scores.length - kept.length : Nat) : Int))
  | .zcard, st => (st, (st.scores.length : Int))
  | .zadd sc, st =>
      if st.scores.contains sc then (⟨st.scores, st.ttl⟩, 0)
      else (⟨st.scores ++ [sc], st.ttl⟩, 1)
  | .expire secs, st => (⟨st.scores, some secs⟩, 1)

/-- Execute a pipeline atomically, collecting each command's result. -/
def runPipe (cmds : List RCmd) (st : LimiterKey) : LimiterKey × List Int :=
  cmds.foldl
    (fun acc c =>
      let (st2, r) := c.run acc.1
      (st2, acc.2 ++ [r]))
    (st, [])

/-- `RedisRateLimiter.is_allowed(key, limit, window)` with the store
reachable: the four-command pipeline, then `results[1] < limit`. -/
def redisIsAllowed (st : LimiterKey) (now : Int) (limit : Int) (window : Int) :
    Bool × LimiterKey :=
  let windowStart := now - window
  let (st2, results) := runPipe
    [.zremrangebyscore 0 windowStart, .zcard, .zadd now, .expire window] st
  (results.getD 1 0 < limit, st2)

/-- Decision sequence of the in-memory limiter over calls at the given
instants, starting from the given request list. -/
def memRunGo (limit : Nat) (window : Int) : List Int → List Int → List Bool
  | _, [] => []
  | reqs, t :: ts =>
      (memIsAllowed reqs t limit window).1 ::
        memRunGo limit window (memIsAllowed reqs t limit window).2 ts

/-- Decision sequence of the in-memory limiter from the empty state. -/
def memDecisions (limit : Nat) (window : Int) (times : List Int) : List Bool :=
  memRunGo limit window [] times

/-- Decision sequence of the Redis limiter over calls at the given
instants, starting from the given per-key state. -/
def redisRunGo (limit : Int) (window : Int) : LimiterKey → List Int → List Bool
  | _, [] => []
  | st, t :: ts =>
      (redisIsAllowed st t limit window).1 ::
        redisRunGo limit window (redisIsAllowed st t limit window).2 ts

/-- Decision sequence of the Redis limiter from the empty state. -/
def redisDecisions (limit : Int) (window : Int) (times : List Int) : List Bool :=
  redisRunGo limit window ⟨[], none⟩ times

/-! ### Per-route concurrency limiter (`AsyncLimitMiddleware`) -/

/-- The per-route semaphore capacity chosen by `get_semaphore`. -/
def routeLimit (maxConcurrent : Nat) (path : String) : Nat :=
  if path.startsWith "/query" then 5
  else if path.startsWith "/ingest" then 3
  else maxConcurrent

/-- Outcome of one admission attempt. -/
inductive AdmitResult : Type
  | accepted
  | rejected
  deriving DecidableEq

/-- One admission check against a semaphore with `available` free permits:
`semaphore.locked()` (no free permit) yields an immediate 429 rejection
without touching the semaphore; otherwise the permit is taken.  The check
and the acquisition are atomic (no `await` separates them in the
middleware).  There is no waiting state: the function always returns. -/
def acquirePermit (available : Nat) : AdmitResult × Nat :=
  if available = 0 then (.rejected, available)
  else (.accepted, available - 1)

/-- `n` admission attempts in sequence with no intervening releases (all
`n` requests still in flight), from `available` free permits. -/
def acquirePermitMany (available : Nat) : Nat → List AdmitResult × Nat
  | 0 => ([], available)
  | n + 1 =>
      ((acquirePermit available).1 :: (acquirePermitMany (acquirePermit available).2 n).1,
       (acquirePermitMany (acquirePermit available).2 n).2)

/-! ### Concrete test scenarios

Closed instances used to exercise the embedded operations: the spec's
`["A","B","C"]` partial-cache-hit example, a falsy (`[]`) cached vector,
and a provider whose async and sync methods both fail. -/

/-- Cache with `"B"` pre-cached as `[0.9, 1.0]` and everything else absent. -/
def cgABC : String → Option (List ℚ) :=
  fun t => if t = "B" then some [0.9, 1.0] else none

/-- Batch method answering `[["0.1,0.2"],["0.3,0.4"]]` for exactly `["A","C"]`. -/
def fABC : List String → Except Unit (List (List ℚ)) :=
  fun ts => if ts = ["A", "C"] then .ok [[0.1, 0.2], [0.3, 0.4]] else .error ()

/-- Provider for the `["A","B","C"]` scenario. -/
def pABC : EmbProvider Unit ℚ :=
  { aBatch := some fABC
    sBatch := fun _ => .error ()
    aSingle := none
    sSingle := fun _ => .error () }

/-- Cache whose every entry is the falsy empty vector. -/
def cgFalsy : String → Option (List Int) :=
  fun _ => some []

/-- Provider returning the vector `[7]` for everything. -/
def pFresh : EmbProvider Unit Int :=
  { aBatch := some fun ts => .ok (ts.map fun _ => [7])
    sBatch := fun _ => .error ()
    aSingle := some fun _ => .ok [7]
    sSingle := fun _ => .error () }

/-- Demo deserializer standing in for `json.loads` in concrete store runs
(`String.toNat?` is not kernel-reducible, so the roundtrip is spelled out). -/
def demoLoads : String → Option Nat :=
  fun s => if s = "42" then some 42 else none

/-- Provider whose async and sync methods all fail (errors are numbered so
that the propagated error is observable). -/
def pDead : EmbProvider Nat Int :=
  { aBatch := some fun _ => .error 1
    sBatch := fun _ => .error 2
    aSingle := some fun _ => .error 1
    sSingle := fun _ => .error 2 }

/-! ### Lemmas about the pair ordering used by `sorted(kwargs.items())` -/

theorem charsLt_self : ∀ l : List Char, charsLt l l = false := by
  intro l
  induction l with
  | nil => rfl
  | cons a as ih => simp [charsLt, ih]

theorem charsLt_conn :
    ∀ a b : List Char, charsLt a b = false → charsLt b a = false → a = b := by
  intro a
  induction a with
  | nil =>
      intro b hab _
      cases b with
      | nil => rfl
      | cons y ys => simp [charsLt] at hab
  | cons x xs ih =>
      intro b hab hba
      cases b with
      | nil => simp [charsLt] at hba
      | cons y ys =>
          simp only [charsLt] at hab hba
          by_cases hxy : x = y
          · subst hxy
            simp only [if_pos rfl] at hab hba
            rw [ih ys hab hba]
          · simp only [if_neg hxy, if_neg (Ne.symm hxy)] at hab hba
            simp only [decide_eq_false_iff_not, Nat.not_lt] at hab hba
            exact absurd (Char.ext (UInt32.ext (Nat.le_antisymm hba hab))) hxy

theorem charsLt_trans :
    ∀ a b c : List Char, charsLt a b = true → charsLt b c = true → charsLt a c = true := by
  intro a
  induction a with
  | nil =>
      intro b c hab hbc
      cases b with
      | nil => simp [charsLt] at hab
      | cons y ys =>
          cases c with
          | nil => simp [charsLt] at hbc
          | cons z zs => rfl
  | cons x xs ih =>
      intro b c hab hbc
      cases b with
      | nil => simp [charsLt] at hab
      | cons y ys =>
          cases c with
          | nil => simp [charsLt] at hbc
          | cons z zs =>
              simp only [charsLt] at hab hbc ⊢
              by_cases hxy : x = y
              · subst hxy
                simp only [if_pos rfl] at hab
                by_cases hxz : x = z
                · subst hxz
                  simp only [if_pos rfl] at hbc ⊢
                  exact ih ys zs hab hbc
                · simp only [if_neg hxz] at hbc ⊢
                  exact hbc
              · simp only [if_neg hxy] at hab
                by_cases hyz : y = z
                · subst hyz
                  simp only [if_neg hxy]
                  exact hab
                · simp only [if_neg hyz] at hbc
                  simp only [decide_eq_true_eq] at hab hbc
                  by_cases hxz : x = z
                  · subst hxz; omega
                  · simp only [if_neg hxz, decide_eq_true_eq]
                    omega

theorem charsLt_asymm :
    ∀ a b : List Char, charsLt a b = true → charsLt b a = false := by
  intro a b hab
  cases hba : charsLt b a
  · rfl
  · have := charsLt_trans a b a hab hba
    rw [charsLt_self] at this
    exact absurd this (by simp)

theorem pairLe_total : ∀ a b : String × String, pairLe a b ∨ pairLe b a := by
  intro a b
  cases h1 : charsLt a.1.data b.1.data with
  | true => exact Or.inl (Or.inl h1)
  | false =>
      cases h2 : charsLt b.1.data a.1.data with
      | true => exact Or.inr (Or.inl h2)
      | false =>
          have hk : a.1 = b.1 := String.ext (charsLt_conn _ _ h1 h2)
          cases hv : charsLt b.2.data a.2.data with
          | false => exact Or.inl (Or.inr ⟨hk, hv⟩)
          | true => exact Or.inr (Or.inr ⟨hk.symm, charsLt_asymm _ _ hv⟩)

theorem pairLe_trans :
    ∀ a b c : String × String, pairLe a b → pairLe b c → pairLe a c := by
  intro a b c hab hbc
  have hab2 : strLt a.1 b.1 = true ∨ (a.1 = b.1 ∧ strLt b.2 a.2 = false) := hab
  have hbc2 : strLt b.1 c.1 = true ∨ (b.1 = c.1 ∧ strLt c.2 b.2 = false) := hbc
  rcases hab2 with h1 | ⟨hk1, hv1⟩ <;> rcases hbc2 with h2 | ⟨hk2, hv2⟩
  · exact Or.inl (charsLt_trans _ _ _ h1 h2)
  · exact Or.inl (hk2 ▸ h1)
  · exact Or.inl (hk1 ▸ h2)
  · refine Or.inr ⟨hk1.trans hk2, ?_⟩
    show charsLt c.2.data a.2.data = false
    have hv1b : charsLt b.2.data a.2.data = false := hv1
    have hv2b : charsLt c.2.data b.2.data = false := hv2
    cases hca : charsLt c.2.data a.2.data with
    | false => rfl
    | true =>
        exfalso
        cases hav : charsLt a.2.data b.2.data with
        | false =>
            have heq : a.2.data = b.2.data := charsLt_conn _ _ hav hv1b
            rw [heq] at hca
            rw [hca] at hv2b
            exact Bool.noConfusion hv2b
        | true =>
            have hcb := charsLt_trans _ _ _ hca hav
            rw [hcb] at hv2b
            exact Bool.noConfusion hv2b

theorem pairLe_antisymm :
    ∀ a b : String × String, pairLe a b → pairLe b a → a = b := by
  intro a b hab hba
  have hab2 : strLt a.1 b.1 = true ∨ (a.1 = b.1 ∧ strLt b.2 a.2 = false) := hab
  have hba2 : strLt b.1 a.1 = true ∨ (b.1 = a.1 ∧ strLt a.2 b.2 = false) := hba
  rcases hab2 with h1 | ⟨hk1, hv1⟩ <;> rcases hba2 with h2 | ⟨hk2, hv2⟩
  · have h2b : charsLt b.1.data a.1.data = true := h2
    rw [charsLt_asymm _ _ h1] at h2b
    exact Bool.noConfusion h2b
  · have h1b : charsLt a.1.data b.1.data = true := h1
    rw [hk2] at h1b
    rw [charsLt_self] at h1b
    exact Bool.noConfusion h1b
  · have h2b : charsLt b.1.data a.1.data = true := h2
    rw [hk1] at h2b
    rw [charsLt_self] at h2b
    exact Bool.noConfusion h2b
  · exact Prod.ext hk1 (String.ext (charsLt_conn _ _ hv2 hv1))

/-! ### Lemmas about the embedding splice -/

theorem fillNones_nil {β : Type} : ∀ rs : List (Option β), fillNones rs [] = rs := by
  intro rs
  induction rs with
  | nil => rfl
  | cons x rs ih => cases x <;> simp [fillNones, ih]

theorem fillNones_length {β : Type} :
    ∀ (rs : List (Option β)) (vs : List β), (fillNones rs vs).length = rs.length := by
  intro rs
  induction rs with
  | nil => intro vs; rfl
  | cons x rs ih =>
      intro vs
      cases x with
      | some r => simp [fillNones, ih]
      | none => cases vs <;> simp [fillNones, ih]

theorem nonesBefore_zero {β : Type} (rs : List (Option β)) : nonesBefore rs 0 = 0 := rfl

theorem nonesBefore_some {β : Type} (c : β) (rs : List (Option β)) (j : Nat) :
    nonesBefore (some c :: rs) (j + 1) = nonesBefore rs j := by
  simp [nonesBefore]

theorem nonesBefore_none {β : Type} (rs : List (Option β)) (j : Nat) :
    nonesBefore (none :: rs) (j + 1) = nonesBefore rs j + 1 := by
  simp [nonesBefore, Nat.add_comm]

theorem fillNones_getD {β : Type} :
    ∀ (rs : List (Option β)) (vs : List β) (j : Nat), j < rs.length →
      (fillNones rs vs).getD j none =
        (match rs.getD j none with
         | some c => some c
         | none => vs.get? (nonesBefore rs j)) := by
  intro rs
  induction rs with
  | nil => intro vs j h; simp at h
  | cons x rs ih =>
      intro vs j h
      cases x with
      | some c =>
          cases j with
          | zero => simp [fillNones, nonesBefore_zero]
          | succ j =>
              have hj : j < rs.length := by simpa using h
              simp only [fillNones, List.getD_cons_succ, nonesBefore_some]
              exact ih vs j hj
      | none =>
          cases vs with
          | nil =>
              rw [fillNones, fillNones_nil]
              cases j with
              | zero => simp
              | succ j =>
                  simp only [List.getD_cons_succ]
                  cases hr : rs.getD j none <;> simp [hr]
          | cons v vs =>
              cases j with
              | zero => simp [fillNones, nonesBefore_zero]
              | succ j =>
                  have hj : j < rs.length := by simpa using h
                  simp only [fillNones, List.getD_cons_succ, nonesBefore_none]
                  rw [ih vs j hj]
                  cases hr : rs.getD j none <;> simp [hr]

theorem foldl_set_shift {β : Type} :
    ∀ (pairs : List (Nat × β)) (x : Option β) (rs : List (Option β)),
      (∀ p ∈ pairs, 1 ≤ p.1) →
      pairs.foldl (fun r iv => r.set iv.1 (some iv.2)) (x :: rs) =
        x :: (pairs.map fun p => (p.1 - 1, p.2)).foldl
              (fun r iv => r.set iv.1 (some iv.2)) rs := by
  intro pairs
  induction pairs with
  | nil => intro x rs _; rfl
  | cons p ps ih =>
      intro x rs h
      obtain ⟨n, v⟩ := p
      obtain ⟨m, rfl⟩ : ∃ m, n = m + 1 := by
        have := h (n, v) (List.mem_cons_self _ _)
        exact ⟨n - 1, by omega⟩
      simp only [List.foldl_cons, List.map_cons, List.set_cons_succ, Nat.add_sub_cancel]
      exact ih x (rs.set m (some v)) fun q hq => h q (List.mem_cons_of_mem _ hq)

theorem pyTruthyList_getD {α : Type} {o : Option (List α)}
    (h : pyTruthyList o = true) : some (o.getD []) = o := by
  cases o with
  | none => simp [pyTruthyList] at h
  | some l => rfl

theorem embedScan_cons {α : Type} (cacheGet : String → Option (List α))
    (t : String) (ts : List String) (i : Nat) :
    embedScan cacheGet (t :: ts) i =
      if pyTruthyList (cacheGet t) then
        (some ((cacheGet t).getD []) :: (embedScan cacheGet ts (i + 1)).1,
         (embedScan cacheGet ts (i + 1)).2.1, (embedScan cacheGet ts (i + 1)).2.2)
      else
        (none :: (embedScan cacheGet ts (i + 1)).1,
         t :: (embedScan cacheGet ts (i + 1)).2.1,
         i :: (embedScan cacheGet ts (i + 1)).2.2) := by
  simp only [embedScan]

theorem embedScan_len {α : Type} (cacheGet : String → Option (List α)) :
    ∀ (ts : List String) (i : Nat),
      (embedScan cacheGet ts i).1.length = ts.length := by
  intro ts
  induction ts with
  | nil => intro i; rfl
  | cons t ts ih =>
      intro i
      rw [embedScan_cons]
      by_cases h : pyTruthyList (cacheGet t) <;> simp [h, ih (i + 1)]

theorem embedScan_getD {α : Type} (cacheGet : String → Option (List α)) :
    ∀ (ts : List String) (i j : Nat), j < ts.length →
      (embedScan cacheGet ts i).1.getD j none =
        if pyTruthyList (cacheGet (ts.getD j "")) then cacheGet (ts.getD j "")
        else none := by
  intro ts
  induction ts with
  | nil => intro i j h; simp at h
  | cons t ts ih =>
      intro i j hj
      rw [embedScan_cons]
      by_cases h : pyTruthyList (cacheGet t)
      · cases j with
        | zero => simp [h, pyTruthyList_getD h]
        | succ j =>
            have hj2 : j < ts.length := by simpa using hj
            simp only [h, if_true, List.getD_cons_succ]
            exact ih (i + 1) j hj2
      · cases j with
        | zero => simp [h]
        | succ j =>
            have hj2 : j < ts.length := by simpa using hj
            simp only [h, if_false, List.getD_cons_succ]
            exact ih (i + 1) j hj2

theorem embedScan_indices_ge {α : Type} (cacheGet : String → Option (List α)) :
    ∀ (ts : List String) (i j : Nat), j ∈ (embedScan cacheGet ts i).2.2 → i ≤ j := by
  intro ts
  induction ts with
  | nil => intro i j h; simp [embedScan] at h
  | cons t ts ih =>
      intro i j hmem
      rw [embedScan_cons] at hmem
      cases h : pyTruthyList (cacheGet t) with
      | true =>
          simp only [h, if_true] at hmem
          exact le_trans (Nat.le_succ i) (ih (i + 1) j hmem)
      | false =>
          simp only [h, Bool.false_eq_true, if_false, List.mem_cons] at hmem
          rcases hmem with rfl | hmem
          · exact le_refl j
          · exact le_trans (Nat.le_succ i) (ih (i + 1) j hmem)

theorem embedScan_nonesBefore {α : Type} (cacheGet : String → Option (List α)) :
    ∀ (ts : List String) (i j : Nat),
      nonesBefore (embedScan cacheGet ts i).1 j = missRank cacheGet ts j := by
  intro ts
  induction ts with
  | nil => intro i j; simp [embedScan, nonesBefore, missRank]
  | cons t ts ih =>
      intro i j
      rw [embedScan_cons]
      cases j with
      | zero =>
          by_cases h : pyTruthyList (cacheGet t) <;>
            simp [h, nonesBefore_zero, missRank]
      | succ j =>
          cases h : pyTruthyList (cacheGet t) with
          | true =>
              simp only [h, if_true, nonesBefore_some, ih (i + 1) j]
              simp [missRank, List.take_succ_cons, List.filter_cons, h]
          | false =>
              simp only [h, Bool.false_eq_true, if_false, nonesBefore_none, ih (i + 1) j]
              simp [missRank, List.take_succ_cons, List.filter_cons, h, Nat.add_comm]

theorem embedScan_fill {α : Type} (cacheGet : String → Option (List α)) :
    ∀ (ts : List String) (i : Nat) (vs : List (List α)),
      (((embedScan cacheGet ts i).2.2.map fun j => j - i).zip vs).foldl
          (fun r iv => r.set iv.1 (some iv.2)) (embedScan cacheGet ts i).1 =
        fillNones (embedScan cacheGet ts i).1 vs := by
  intro ts
  induction ts with
  | nil => intro i vs; simp [embedScan, fillNones]
  | cons t ts ih =>
      intro i vs
      have hge : ∀ (ws : List (List α)),
          ∀ p ∈ ((embedScan cacheGet ts (i + 1)).2.2.map fun j => j - i).zip ws,
            1 ≤ p.1 := by
        intro ws p hp
        obtain ⟨hp1, _⟩ := List.of_mem_zip hp
        obtain ⟨j, hj, he⟩ := List.mem_map.mp hp1
        have := embedScan_indices_ge cacheGet ts (i + 1) j hj
        omega
      have hshift : ∀ (ws : List (List α)),
          (((embedScan cacheGet ts (i + 1)).2.2.map fun j => j - i).zip ws).map
              (fun p => (p.1 - 1, p.2)) =
            ((embedScan cacheGet ts (i + 1)).2.2.map fun j => j - (i + 1)).zip ws := by
        intro ws
        rw [List.zip_map_left, List.zip_map_left, List.map_map]
        refine List.map_congr_left fun p _ => ?_
        obtain ⟨a, b⟩ := p
        simp [Prod.map, Nat.sub_sub]
      rw [embedScan_cons]
      cases h : pyTruthyList (cacheGet t) with
      | true =>
          simp only [h, if_true]
          rw [foldl_set_shift _ _ _ (hge vs), hshift vs, ih (i + 1) vs]
          rfl
      | false =>
          simp only [h, Bool.false_eq_true, if_false, List.map_cons, Nat.sub_self]
          cases vs with
          | nil => simp [fillNones, fillNones_nil]
          | cons v vs2 =>
              simp only [List.zip_cons_cons, List.foldl_cons, List.set_cons_zero]
              rw [foldl_set_shift _ _ _ (hge vs2), hshift vs2, ih (i + 1) vs2]
              rfl

/-- The texts `aembed_documents` will send to the provider: exactly the
cache misses, in their original relative order. -/
theorem embedScan_uncached {α : Type} (cacheGet : String → Option (List α)) :
    ∀ (ts : List String) (i : Nat),
      (embedScan cacheGet ts i).2.1 = ts.filter fun t => !pyTruthyList (cacheGet t) := by
  intro ts
  induction ts with
  | nil => intro i; rfl
  | cons t ts ih =>
      intro i
      simp only [embedScan, List.filter_cons]
      rcases h : pyTruthyList (cacheGet t) with _ | _ <;> simp [h, ih (i + 1)]

/-! ### Helper lemmas for the rate limiters and the admission check -/

theorem acquirePermitMany_count_rejected :
    ∀ (n available : Nat),
      ((acquirePermitMany available n).1.count .rejected) = n - min available n := by
  intro n
  induction n with
  | zero => intro a; simp [acquirePermitMany]
  | succ n ih =>
      intro a
      cases a with
      | zero =>
          have h := ih 0
          simp only [acquirePermitMany, acquirePermit, if_pos rfl, List.count_cons] at h ⊢
          simp only [beq_self_eq_true, if_true, h]
          omega
      | succ a =>
          have h := ih a
          simp only [acquirePermitMany, acquirePermit, if_neg (Nat.succ_ne_zero a),
            Nat.add_sub_cancel, List.count_cons] at h ⊢
          simp only [h, beq_iff_eq]
          rw [if_neg (fun hcon => AdmitResult.noConfusion hcon)]
          omega

/-- Unfolding of the Redis pipeline: the decision reads the post-removal
cardinality, the final state has `now` inserted and the TTL refreshed. -/
theorem redisIsAllowed_eq (st : LimiterKey) (now limit window : Int) :
    redisIsAllowed st now limit window =
      (decide ((((st.scores.filter fun s =>
            !(decide (0 ≤ s ∧ s ≤ now - window))).length : Int)) < limit),
       ⟨(if (st.scores.filter fun s =>
             !(decide (0 ≤ s ∧ s ≤ now - window))).contains now
         then st.scores.filter fun s => !(decide (0 ≤ s ∧ s ≤ now - window))
         else (st.scores.filter fun s => !(decide (0 ≤ s ∧ s ≤ now - window))) ++ [now]),
        some window⟩) := by
  simp only [redisIsAllowed, runPipe, RCmd.run, List.foldl_cons, List.foldl_nil]
  split <;> rfl

/-- Unfolding of the in-memory check: prune (keep instants strictly newer
than `now - window`), decide by the pruned count, append `now` on success. -/
theorem memIsAllowed_eq (reqs : List Int) (now : Int) (limit : Nat) (window : Int) :
    memIsAllowed reqs now limit window =
      (decide ((reqs.filter fun rt => decide (now - window < rt)).length < limit),
       (reqs.filter fun rt => decide (now - window < rt)) ++
         (if (reqs.filter fun rt => decide (now - window < rt)).length < limit
          then [now] else [])) := by
  by_cases h : (reqs.filter fun rt => decide (now - window < rt)).length < limit
  · rw [memIsAllowed, if_neg (by omega)]
    simp [h]
  · rw [memIsAllowed, if_pos (by omega)]
    simp [h]

/-! ### Claim theorems -/

/-- C5.  Local sliding-window correctness: on every call the in-memory
limiter prunes exactly the entries with timestamp `≤ now - window`, refuses
iff at least `limit` entries remain, and appends the current instant only
when it answers `true`; with `limit = 3`, `window = 60`, calls at instants
`0, 10, 20, 30` give `true, true, true, false` and a call at `100` (past
the window) gives `true` again. -/
theorem in_memory_sliding_window_spec :
    (∀ (reqs : List Int) (now : Int) (limit : Nat) (window : Int),
       memIsAllowed reqs now limit window =
         (decide ((reqs.filter fun rt => decide (now - window < rt)).length < limit),
          (reqs.filter fun rt => decide (now - window < rt)) ++
            (if (reqs.filter fun rt => decide (now - window < rt)).length < limit
             then [now] else []))) ∧
    memDecisions 3 60 [0, 10, 20, 30, 100] = [true, true, true, false, true] := by
  exact ⟨memIsAllowed_eq, by decide⟩

/-- C9.  Non-blocking admission: with no free permit the admission check
rejects immediately and leaves the permit pool untouched (there is no
queueing state at all); over `n` back-to-back attempts against `available`
permits exactly `n - min available n` are rejected, so 3 concurrent
attempts against a capacity of 2 yield at least one immediate rejection. -/
theorem admission_nonblocking_rejects_when_full :
    acquirePermit 0 = (.rejected, 0) ∧
    (∀ (available n : Nat),
       ((acquirePermitMany available n).1.count .rejected) = n - min available n) ∧
    1 ≤ ((acquirePermitMany 2 3).1.count .rejected) := by
  refine ⟨rfl, fun a n => acquirePermitMany_count_rejected n a, by decide⟩

/-- C7.  The result cache fails closed: for each kind (embedding, query,
similarity), with no client (`redis_client is None`) or with the store
call raising, `get` returns absent and `set` reports `false`; all the
operations are total functions (no exception escapes). -/
theorem cache_fails_closed (α ε : Type) (loads : String → Option α) (dumps : α → String) :
    (∀ text modelName, get_embedding_cache loads none text modelName = none) ∧
    (∀ q d k, get_query_cache loads none q d k = none) ∧
    (∀ q d k, get_similarity_search_cache loads none q d k = none) ∧
    (∀ e : ε, getCacheFrom loads (.error e) = none) ∧
    (∀ text modelName emb ttl dflt,
       (set_embedding_cache dumps none text modelName emb ttl dflt).1 = false) ∧
    (∀ q d k r ttl dflt, (set_query_cache dumps none q d k r ttl dflt).1 = false) ∧
    (∀ q d k ds ttl dflt,
       (set_similarity_search_cache dumps none q d k ds ttl dflt).1 = false) ∧
    (∀ e : ε, setCacheFrom (.error e) = false) :=
  ⟨fun _ _ => rfl, fun _ _ _ => rfl, fun _ _ _ => rfl, fun _ => rfl,
   fun _ _ _ _ _ => rfl, fun _ _ _ _ _ _ => rfl, fun _ _ _ _ _ _ => rfl, fun _ => rfl⟩

/-- C8 (counterexample).  Key derivation is not injective up to digest
collision: the argument lists `["a|b"]` and `["a", "b"]` differ, yet they
build the identical canonical string (the join separator `|` is not
escaped), hence the identical key — with equal digest inputs, so this is
not a digest collision. -/
theorem cache_key_separator_injection_collision :
    generateCacheKey "query" ["a|b"] [] = generateCacheKey "query" ["a", "b"] [] ∧
    canonicalKeyString ["a|b"] [] = canonicalKeyString ["a", "b"] [] ∧
    (["a|b"] : List String) ≠ ["a", "b"] :=
  ⟨rfl, rfl, by decide⟩

/-- C4 (counterexample).  The two rate limiters are not decision-equivalent:
with `limit = 1`, `window = 60` and calls at instants `0, 30, 70`, the local
variant answers `true, false, true` but the shared variant answers
`true, false, false`, because only the shared variant records the rejected
call at instant `30`. -/
theorem limiters_diverge_after_rejected_call :
    memDecisions 1 60 [0, 30, 70] = [true, false, true] ∧
    redisDecisions 1 60 [0, 30, 70] = [true, false, false] := by
  decide

set_option maxRecDepth 100000 in
/-- C1 (code evaluated at the failing input).  Caching the query
`("what", doc_id="doc1", k=10)` stores under the hashed key
`query:2dd9fd138a7d717a`; `invalidate_document_cache("doc1")` scans for
`query:*doc_id=doc1*`/`similarity:*doc_id=doc1*`, which cannot match a
hashed key, so the store is unchanged and a subsequent `get` still returns
the cached result instead of absent. -/
theorem invalidation_never_matches_hashed_keys :
    set_query_cache (fun n : Nat => toString n) (some RedisKV.empty)
        "what" (some "doc1") 10 42 none 3600
      = (true, some ⟨[("query:2dd9fd138a7d717a", 3600, "42")]⟩) ∧
    invalidate_document_cache (some ⟨[("query:2dd9fd138a7d717a", 3600, "42")]⟩) "doc1"
      = some ⟨[("query:2dd9fd138a7d717a", 3600, "42")]⟩ ∧
    get_query_cache demoLoads (some ⟨[("query:2dd9fd138a7d717a", 3600, "42")]⟩)
        "what" (some "doc1") 10
      = some 42 := by
  refine ⟨by decide, by decide, by decide⟩

/-- C6.  Shared-variant algorithm: with the store reachable, each call is
one atomic four-command pipeline — (a) remove the entries with score in
`[0, now - window]` (every recorded entry has a nonnegative score, so
exactly those with score `≤ now - window`), (b) count the rest, (c) insert
an entry for `now` unconditionally (a rejected call still consumes a
slot), (d) refresh the key's TTL to `window` — and it returns `true`
exactly when the count from (b) is strictly below the limit. -/
theorem redis_pipeline_behavior :
    ∀ (st : LimiterKey) (now limit window : Int),
      (∀ s ∈ st.scores, 0 ≤ s) →
      ((redisIsAllowed st now limit window).1
          = decide ((((st.scores.filter fun s => decide (now - window < s)).length : Int)) < limit) ∧
       (redisIsAllowed st now limit window).2.scores
          = (if (st.scores.filter fun s => decide (now - window < s)).contains now
             then st.scores.filter fun s => decide (now - window < s)
             else (st.scores.filter fun s => decide (now - window < s)) ++ [now]) ∧
       now ∈ (redisIsAllowed st now limit window).2.scores ∧
       (redisIsAllowed st now limit window).2.ttl = some window) := by
  intro st now limit window hpos
  have hfeq : (st.scores.filter fun s => !(decide (0 ≤ s ∧ s ≤ now - window)))
      = st.scores.filter fun s => decide (now - window < s) := by
    apply List.filter_congr
    intro s hs
    have h0 := hpos s hs
    by_cases hlt : now - window < s
    · have hn : ¬(0 ≤ s ∧ s ≤ now - window) := by omega
      simp [hlt, hn]
    · have hy : 0 ≤ s ∧ s ≤ now - window := by omega
      simp [hlt, hy]
  rw [redisIsAllowed_eq, hfeq]
  refine ⟨rfl, rfl, ?_, rfl⟩
  by_cases hc : (st.scores.filter fun s => decide (now - window < s)).contains now
  · simp only [hc, if_true]
    simpa using hc
  · simp only [hc, if_false]
    simp

/-- Witness for C6 at store `{0, 30}`, call at instant 70 with
`limit = 1`, `window = 60`: the call is rejected (the surviving entry 30
reaches the limit) yet 70 is still inserted and the TTL is refreshed. -/
theorem redis_pipeline_behavior_witness :
    ((redisIsAllowed ⟨[0, 30], none⟩ 70 1 60).1
        = decide (((((([0, 30] : List Int)).filter fun s => decide (70 - 60 < s)).length : Int)) < 1) ∧
     (redisIsAllowed ⟨[0, 30], none⟩ 70 1 60).2.scores
        = (if ((([0, 30] : List Int)).filter fun s => decide (70 - 60 < s)).contains 70
           then (([0, 30] : List Int)).filter fun s => decide (70 - 60 < s)
           else ((([0, 30] : List Int)).filter fun s => decide (70 - 60 < s)) ++ [70]) ∧
     (70 : Int) ∈ (redisIsAllowed ⟨[0, 30], none⟩ 70 1 60).2.scores ∧
     (redisIsAllowed ⟨[0, 30], none⟩ 70 1 60).2.ttl = some 60) :=
  redis_pipeline_behavior ⟨[0, 30], none⟩ 70 1 60 (by decide)

/-- On call sequences where the local limiter admits every call, the two
limiters move through identical per-key states and return identical
decisions (shown for instants that are nonnegative and pairwise distinct,
as `time.time()` values are). -/
theorem limiters_go_agree :
    ∀ (times : List Int) (st : List Int) (ttl : Option Int) (limit : Nat) (window : Int),
      (∀ t ∈ times, 0 ≤ t) → (∀ s ∈ st, 0 ≤ s) →
      times.Pairwise (· ≠ ·) → (∀ t ∈ times, t ∉ st) →
      (memRunGo limit window st times).all id = true →
      redisRunGo (limit : Int) window ⟨st, ttl⟩ times = memRunGo limit window st times := by
  intro times
  induction times with
  | nil => intro st ttl limit window _ _ _ _ _; rfl
  | cons t ts ih =>
      intro st ttl limit window htimes hst hpw hnotin hall
      have h0t : (0 : Int) ≤ t := htimes t (List.mem_cons_self t ts)
      have hfeq : (st.filter fun s => !(decide (0 ≤ s ∧ s ≤ t - window)))
          = st.filter fun rt => decide (t - window < rt) := by
        apply List.filter_congr
        intro s hs
        have h0 := hst s hs
        by_cases hlt : t - window < s
        · have hn : ¬(0 ≤ s ∧ s ≤ t - window) := by omega
          simp [hlt, hn]
        · have hy : 0 ≤ s ∧ s ≤ t - window := by omega
          simp [hlt, hy]
      have hmemstep := memIsAllowed_eq st t limit window
      simp only [memRunGo, redisRunGo, hmemstep] at hall ⊢
      simp only [List.all_cons, Bool.and_eq_true, id] at hall
      obtain ⟨hheadtrue, htail⟩ := hall
      have hlen : (st.filter fun rt => decide (t - window < rt)).length < limit := by
        simpa using hheadtrue
      have htnotin : t ∉ st.filter fun rt => decide (t - window < rt) := by
        intro hmem
        exact hnotin t (List.mem_cons_self t ts) (List.mem_of_mem_filter hmem)
      have hcont : (st.filter fun rt => decide (t - window < rt)).contains t = false := by
        simpa using htnotin
      rw [redisIsAllowed_eq]
      simp only [hfeq, hcont, Bool.false_eq_true, if_false]
      have hdec : decide ((((st.filter fun rt => decide (t - window < rt)).length : Nat) : Int) < (limit : Int))
          = true := by
        simp only [decide_eq_true_eq]
        exact_mod_cast hlen
      rw [hdec, if_pos hlen]
      have hdect : (decide ((st.filter fun rt => decide (t - window < rt)).length < limit)) = true := by
        simpa using hlen
      rw [hdect]
      congr 1
      apply ih
      · exact fun t2 ht2 => htimes t2 (List.mem_cons_of_mem t ht2)
      · intro s hs
        rcases List.mem_append.mp hs with hs2 | hs2
        · exact hst s (List.mem_of_mem_filter hs2)
        · rw [List.mem_singleton.mp hs2]; exact h0t
      · exact (List.pairwise_cons.mp hpw).2
      · intro t2 ht2 hmem
        rcases List.mem_append.mp hmem with hs2 | hs2
        · exact hnotin t2 (List.mem_cons_of_mem t ht2) (List.mem_of_mem_filter hs2)
        · exact (List.pairwise_cons.mp hpw).1 t2 ht2 (List.mem_singleton.mp hs2).symm
      · rw [if_pos hlen] at htail
        exact htail

/-- C4 (amended).  The two limiters implement the same `allow` signature
and agree on every call sequence in which no call is rejected; they do not
treat rejected attempts the same way (see the counterexample), so the
agreement is conditional on the absence of rejections. -/
theorem limiters_agree_when_no_rejection :
    ∀ (limit : Nat) (window : Int) (times : List Int),
      (∀ t ∈ times, 0 ≤ t) → times.Pairwise (· ≠ ·) →
      (memDecisions limit window times).all id = true →
      redisDecisions (limit : Int) window times = memDecisions limit window times := by
  intro limit window times h1 h2 h3
  exact limiters_go_agree times [] none limit window h1 (by simp) h2 (by simp) h3

/-- Witness for the amended C4: `limit = 2`, `window = 60`, calls at
`0, 30, 70` — all admitted by the local limiter, and the shared limiter
returns the same decisions. -/
theorem limiters_agree_when_no_rejection_witness :
    redisDecisions ((2 : Nat) : Int) 60 [0, 30, 70] = memDecisions 2 60 [0, 30, 70] :=
  limiters_agree_when_no_rejection 2 60 [0, 30, 70] (by decide) (by decide) (by decide)

/-- C8 (amended).  Key derivation is deterministic — reordering the named
arguments never changes the key — and injective whenever the truncated
digests of the canonical strings differ (canonical-string collisions, such
as separator injection, are the remaining source of equal keys and are
exhibited separately). -/
theorem cache_key_determinism_and_digest_injectivity :
    (∀ (pre : String) (args : List String) (kw1 kw2 : List (String × String)),
       kw1.Perm kw2 → generateCacheKey pre args kw1 = generateCacheKey pre args kw2) ∧
    (∀ (pre : String) (a1 : List String) (k1 : List (String × String))
       (a2 : List String) (k2 : List (String × String)),
       (sha256hex (canonicalKeyString a1 k1)).take 16 ≠
         (sha256hex (canonicalKeyString a2 k2)).take 16 →
       generateCacheKey pre a1 k1 ≠ generateCacheKey pre a2 k2) := by
  constructor
  · intro pre args kw1 kw2 hperm
    haveI : IsTotal (String × String) pairLe := ⟨pairLe_total⟩
    haveI : IsTrans (String × String) pairLe := ⟨pairLe_trans⟩
    haveI : IsAntisymm (String × String) pairLe := ⟨pairLe_antisymm⟩
    have hsorted : sortedKwargs kw1 = sortedKwargs kw2 :=
      List.eq_of_perm_of_sorted
        (((List.perm_insertionSort pairLe kw1).trans hperm).trans
          (List.perm_insertionSort pairLe kw2).symm)
        (List.sorted_insertionSort pairLe kw1)
        (List.sorted_insertionSort pairLe kw2)
    unfold generateCacheKey canonicalKeyString
    rw [hsorted]
  · intro pre a1 k1 a2 k2 hne hkey
    apply hne
    have hkey2 : (pre ++ ":") ++ (sha256hex (canonicalKeyString a1 k1)).take 16
        = (pre ++ ":") ++ (sha256hex (canonicalKeyString a2 k2)).take 16 := hkey
    revert hkey2
    generalize (sha256hex (canonicalKeyString a1 k1)).take 16 = X
    generalize (sha256hex (canonicalKeyString a2 k2)).take 16 = Y
    intro hkey2
    have hd := congrArg String.data hkey2
    rw [String.data_append, String.data_append] at hd
    exact String.ext (List.append_cancel_left hd)

set_option maxRecDepth 100000 in
/-- Witness for the amended C8: swapping `doc_id` and `k` leaves the key
unchanged, and arguments `["x"]` vs `["y"]` (whose truncated digests
differ) produce different keys. -/
theorem cache_key_determinism_witness :
    generateCacheKey "query" ["q"] [("doc_id", "d1"), ("k", "10")]
        = generateCacheKey "query" ["q"] [("k", "10"), ("doc_id", "d1")] ∧
    generateCacheKey "query" ["x"] [] ≠ generateCacheKey "query" ["y"] [] :=
  ⟨cache_key_determinism_and_digest_injectivity.1 "query" ["q"]
     [("doc_id", "d1"), ("k", "10")] [("k", "10"), ("doc_id", "d1")] (by decide),
   cache_key_determinism_and_digest_injectivity.2 "query" ["x"] [] ["y"] [] (by decide)⟩

/-- C3.  If the provider fails totally on the batch for the uncached
texts — the async attempt (when present) raises, and the sync fallback
raises as well — the failure propagates out of `aembed_documents` (the
exception of the final sync call; there is no path that still returns a
result). -/
theorem aembed_documents_total_failure_propagates :
    ∀ (ε α : Type) (cacheGet : String → Option (List α)) (p : EmbProvider ε α)
      (texts : List String) (e2 : ε),
      (embedScan cacheGet texts 0).2.1 ≠ [] →
      (∀ f, p.aBatch = some f → ∃ e1, f ((embedScan cacheGet texts 0).2.1) = .error e1) →
      p.sBatch ((embedScan cacheGet texts 0).2.1) = .error e2 →
      aembedDocuments cacheGet p texts = .error e2 := by
  intro ε α cacheGet p texts e2 hne hasync hsync
  cases texts with
  | nil => exact absurd rfl hne
  | cons t ts =>
      have hU : (embedScan cacheGet (t :: ts) 0).2.1.isEmpty = false := by
        cases hcase : (embedScan cacheGet (t :: ts) 0).2.1 with
        | nil => exact absurd hcase hne
        | cons u us => rfl
      have hbatch : providerBatch p ((embedScan cacheGet (t :: ts) 0).2.1)
          = (.error e2, [(embedScan cacheGet (t :: ts) 0).2.1,
                         (embedScan cacheGet (t :: ts) 0).2.1]) := by
        unfold providerBatch
        cases hab : p.aBatch with
        | none => simp only [hsync]
        | some f =>
            obtain ⟨e1, hf⟩ := hasync f hab
            simp only [hf, hsync]
      simp only [aembedDocuments, List.isEmpty_cons, Bool.false_eq_true, if_false, hU, hbatch]

/-- Witness for C3: every provider method of `pDead` fails; the error of
the sync fallback (numbered 2) propagates. -/
theorem aembed_total_failure_witness :
    aembedDocuments (fun _ : String => none) pDead ["t"] = .error 2 :=
  aembed_documents_total_failure_propagates Nat Int (fun _ => none) pDead ["t"] 2
    (by decide)
    (fun f hf => ⟨1, by injection hf with h; subst h; rfl⟩)
    rfl

/-- C2.  `aembed_documents` reconciles partial cache hits in order: the
texts with truthy cache entries are resolved from cache, the misses (in
their original relative order) go to the provider in exactly one batch
call, the returned vectors are spliced back at the recorded positions, the
output has the input's length and per-index correspondence (hits get their
cached vector, the `r`-th miss gets the `r`-th fresh vector), and each
fresh vector is written back to the cache with its text; concretely, for
`["A","B","C"]` with `"B"` cached as `[0.9, 1.0]` and the provider
answering `[[0.1, 0.2], [0.3, 0.4]]` for `["A","C"]`, the result is
`[[0.1, 0.2], [0.9, 1.0], [0.3, 0.4]]` with one provider call `["A","C"]`. -/
theorem aembed_documents_splices_hits_and_misses :
    (∀ (ε α : Type) (cacheGet : String → Option (List α)) (p : EmbProvider ε α)
       (texts : List String) (f : List String → Except ε (List (List α)))
       (vs : List (List α)),
       p.aBatch = some f →
       f (texts.filter fun t => !pyTruthyList (cacheGet t)) = .ok vs →
       vs.length = (texts.filter fun t => !pyTruthyList (cacheGet t)).length →
       ∃ run : EmbedRun α,
         aembedDocuments cacheGet p texts = .ok run ∧
         run.output.length = texts.length ∧
         run.providerCalls =
           (if (texts.filter fun t => !pyTruthyList (cacheGet t)).isEmpty then []
            else [texts.filter fun t => !pyTruthyList (cacheGet t)]) ∧
         run.cacheWrites = (texts.filter fun t => !pyTruthyList (cacheGet t)).zip vs ∧
         (∀ j, j < texts.length →
            run.output.getD j none =
              if pyTruthyList (cacheGet (texts.getD j ""))
              then cacheGet (texts.getD j "")
              else vs.get? (missRank cacheGet texts j))) ∧
    aembedDocuments cgABC pABC ["A", "B", "C"] =
      .ok ⟨[some [0.1, 0.2], some [0.9, 1.0], some [0.3, 0.4]],
           [["A", "C"]], [("A", [0.1, 0.2]), ("C", [0.3, 0.4])]⟩ := by
  constructor
  · intro ε α cacheGet p texts f vs hab hf hlen
    have hus : (embedScan cacheGet texts 0).2.1
        = texts.filter fun t => !pyTruthyList (cacheGet t) :=
      embedScan_uncached cacheGet texts 0
    by_cases hT : texts.isEmpty
    · have hTnil : texts = [] := List.isEmpty_iff.mp hT
      subst hTnil
      have hvs : vs = [] := List.length_eq_zero.mp (by simpa using hlen)
      subst hvs
      exact ⟨⟨[], [], []⟩, rfl, rfl, rfl, rfl, fun j hj => absurd hj (by simp)⟩
    · have hT2 : texts.isEmpty = false := by
        revert hT; cases texts.isEmpty <;> simp
      by_cases hU : (embedScan cacheGet texts 0).2.1.isEmpty
      · have husnil : (texts.filter fun t => !pyTruthyList (cacheGet t)) = [] := by
          rw [← hus]; exact List.isEmpty_iff.mp hU
        have hvs : vs = [] := List.length_eq_zero.mp (by rw [hlen, husnil]; rfl)
        subst hvs
        refine ⟨⟨(embedScan cacheGet texts 0).1, [], []⟩, ?_, ?_, ?_, ?_, ?_⟩
        · simp only [aembedDocuments, hT2, Bool.false_eq_true, if_false, hU, if_true]
        · exact embedScan_len cacheGet texts 0
        · rw [husnil]; rfl
        · rw [husnil]; rfl
        · intro j hj
          have hmem : texts.getD j "" ∈ texts := by
            rw [List.getD_eq_getElem _ _ hj]; exact List.getElem_mem hj
          have htr : pyTruthyList (cacheGet (texts.getD j "")) = true := by
            by_contra hcon
            have hmem2 : texts.getD j "" ∈ texts.filter fun t => !pyTruthyList (cacheGet t) :=
              List.mem_filter.mpr ⟨hmem, by
                revert hcon; cases pyTruthyList (cacheGet (texts.getD j "")) <;> simp⟩
            rw [husnil] at hmem2
            simp at hmem2
          rw [embedScan_getD cacheGet texts 0 j hj, htr, if_pos rfl, if_pos rfl]
      · have hU2 : (embedScan cacheGet texts 0).2.1.isEmpty = false := by
          revert hU; cases (embedScan cacheGet texts 0).2.1.isEmpty <;> simp
        have hbatch : providerBatch p ((embedScan cacheGet texts 0).2.1)
            = (.ok vs, [(embedScan cacheGet texts 0).2.1]) := by
          unfold providerBatch
          rw [hus]
          simp only [hab, hf]
        refine ⟨⟨((embedScan cacheGet texts 0).2.2.zip vs).foldl
                   (fun r iv => r.set iv.1 (some iv.2)) (embedScan cacheGet texts 0).1,
                 [(embedScan cacheGet texts 0).2.1],
                 (embedScan cacheGet texts 0).2.1.zip vs⟩, ?_, ?_, ?_, ?_, ?_⟩
        · simp only [aembedDocuments, hT2, Bool.false_eq_true, if_false, hU2, hbatch]
        · have hfill := embedScan_fill cacheGet texts 0 vs
          simp only [Nat.sub_zero, List.map_id'] at hfill
          rw [hfill, fillNones_length, embedScan_len]
        · rw [hus]
          have : (texts.filter fun t => !pyTruthyList (cacheGet t)).isEmpty = false := by
            rw [← hus]; exact hU2
          rw [this]
          rfl
        · rw [hus]
        · intro j hj
          have hfill := embedScan_fill cacheGet texts 0 vs
          simp only [Nat.sub_zero, List.map_id'] at hfill
          rw [hfill]
          have hjlen : j < (embedScan cacheGet texts 0).1.length := by
            rw [embedScan_len]; exact hj
          rw [fillNones_getD _ _ _ hjlen]
          rw [embedScan_getD cacheGet texts 0 j hj]
          by_cases ht : pyTruthyList (cacheGet (texts.getD j ""))
          · obtain ⟨v, hv⟩ : ∃ v, cacheGet (texts.getD j "") = some v := by
              revert ht; cases cacheGet (texts.getD j "") <;> simp [pyTruthyList]
            rw [ht, if_pos rfl, if_pos rfl, hv]
          · have ht2 : pyTruthyList (cacheGet (texts.getD j "")) = false := by
              revert ht; cases pyTruthyList (cacheGet (texts.getD j "")) <;> simp
            rw [ht2]
            simp only [Bool.false_eq_true, if_false]
            rw [embedScan_nonesBefore cacheGet texts 0 j]
  · rfl

set_option maxRecDepth 10000 in
/-- Witness for C2 at the spec's concrete instance: cache `{B ↦ [0.9,1.0]}`,
provider `["A","C"] ↦ [[0.1,0.2],[0.3,0.4]]`, input `["A","B","C"]`. -/
theorem aembed_documents_splices_witness :
    ∃ run : EmbedRun ℚ,
      aembedDocuments cgABC pABC ["A", "B", "C"] = .ok run ∧
      run.output.length = (["A", "B", "C"] : List String).length ∧
      run.providerCalls =
        (if ((["A", "B", "C"] : List String).filter fun t => !pyTruthyList (cgABC t)).isEmpty
         then []
         else [(["A", "B", "C"] : List String).filter fun t => !pyTruthyList (cgABC t)]) ∧
      run.cacheWrites =
        ((["A", "B", "C"] : List String).filter fun t => !pyTruthyList (cgABC t)).zip
          [[0.1, 0.2], [0.3, 0.4]] ∧
      (∀ j, j < (["A", "B", "C"] : List String).length →
         run.output.getD j none =
           if pyTruthyList (cgABC ((["A", "B", "C"] : List String).getD j ""))
           then cgABC ((["A", "B", "C"] : List String).getD j "")
           else ([[0.1, 0.2], [0.3, 0.4]] : List (List ℚ)).get?
                  (missRank cgABC ["A", "B", "C"] j)) :=
  aembed_documents_splices_hits_and_misses.1 Unit ℚ cgABC pABC ["A", "B", "C"]
    fABC [[0.1, 0.2], [0.3, 0.4]] rfl (by rfl) (by rfl)

/-- C10.  A cached vector that is Python-falsy (the empty list) is treated
as a cache miss: `aembed_documents` puts the text among the uncached texts
sent to the provider, and both paths return the freshly computed vector,
never the cached `[]`. -/
theorem falsy_cached_vector_treated_as_miss :
    (∀ (α : Type) (cacheGet : String → Option (List α)) (texts : List String) (t : String),
       cacheGet t = some [] → t ∈ texts → t ∈ (embedScan cacheGet texts 0).2.1) ∧
    (∀ (ε α : Type) (cacheGet : String → Option (List α)) (p : EmbProvider ε α)
       (t : String) (f : String → Except ε (List α)) (v : List α),
       cacheGet t = some [] → p.aSingle = some f → f t = .ok v →
       aembedQuery cacheGet p t = .ok (v, [[t]])) ∧
    (∀ (ε α : Type) (cacheGet : String → Option (List α)) (p : EmbProvider ε α)
       (t : String) (f : List String → Except ε (List (List α))) (v : List α),
       cacheGet t = some [] → p.aBatch = some f → f [t] = .ok [v] →
       aembedDocuments cacheGet p [t] = .ok ⟨[some v], [[t]], [(t, v)]⟩) := by
  refine ⟨?_, ?_, ?_⟩
  · intro α cacheGet texts t hc hmem
    rw [embedScan_uncached]
    exact List.mem_filter.mpr ⟨hmem, by rw [hc]; rfl⟩
  · intro ε α cacheGet p t f v hc hs hf
    simp only [aembedQuery, providerSingle, hc, hs, hf, pyTruthyList, List.isEmpty_nil,
      Bool.not_true, Bool.false_eq_true, if_false]
  · intro ε α cacheGet p t f v hc hab hf
    simp only [aembedDocuments, embedScan, providerBatch, hc, hab, hf, pyTruthyList,
      List.isEmpty_nil, List.isEmpty_cons, Bool.not_true, Bool.false_eq_true, if_false,
      List.zip_cons_cons, List.zip_nil_right, List.foldl_cons, List.foldl_nil,
      List.set_cons_zero]

/-- Witness for C10: a cache answering `[]` for everything and a provider
answering `[7]`; the fresh vector is returned on both paths. -/
theorem falsy_cached_vector_witness :
    ("x" ∈ (embedScan cgFalsy ["x"] 0).2.1) ∧
    aembedQuery cgFalsy pFresh "x" = .ok ([7], [["x"]]) ∧
    aembedDocuments cgFalsy pFresh ["x"] = .ok ⟨[some [7]], [["x"]], [("x", [7])]⟩ :=
  ⟨falsy_cached_vector_treated_as_miss.1 Int cgFalsy ["x"] "x" rfl (by simp),
   falsy_cached_vector_treated_as_miss.2.1 Unit Int cgFalsy pFresh "x" _ [7] rfl rfl rfl,
   falsy_cached_vector_treated_as_miss.2.2 Unit Int cgFalsy pFresh "x" _ [7] rfl rfl rfl⟩
